import Mathlib

/-!
Verification development for the MSA (multiple sequence alignment) viewer core:
viewport math, minimap drag state machine, hysteresis-based display-mode
switching, gapped/ungapped coordinate mapping, overlay composition, FASTA
parsing and per-column / per-range statistics.

All numeric quantities of the viewer (scroll offsets, view fractions, pixel
widths) are modelled over ℚ, mirroring the source's real arithmetic exactly
(the constants 0.75, 1.33, 0.005, 0.99 … become 3/4, 133/100, 1/200, 99/100).
Sequences are modelled as `List Char`; the source's out-of-range string
indexing with a `'-'` default becomes `List.getD` with default `'-'`.
-/

namespace MSA

/-! ### Viewport model

`ViewportState` holds the two pieces of React state `scrollLeft` and
`viewFraction`.  `totalVirtualW w s = w / s.viewFraction` where `w` is the
sequence-area width (`availableWidth - LABEL_WIDTH`). -/

structure ViewportState where
  scrollLeft : ℚ
  viewFraction : ℚ
deriving DecidableEq

def totalVirtualW (w : ℚ) (s : ViewportState) : ℚ :=
  w / s.viewFraction

/-- Source: `const zoomIn = () => setViewFraction((p) => Math.max(0.005, p * 0.75))`. -/
def zoomIn (s : ViewportState) : ViewportState :=
  { s with viewFraction := max (1/200) (s.viewFraction * (3/4)) }

/-- Source: `const zoomOut = () => setViewFraction((p) => Math.min(1, p * 1.33))`. -/
def zoomOut (s : ViewportState) : ViewportState :=
  { s with viewFraction := min 1 (s.viewFraction * (133/100)) }

/-- The zoom slider (`input type="range" min=0.005 max=1`) sets `viewFraction`
directly and leaves `scrollLeft` untouched. -/
def sliderSet (s : ViewportState) (v : ℚ) : ViewportState :=
  { s with viewFraction := v }

/-- A scroll event copies the browser's (physically clamped) `scrollLeft`
into state and leaves `viewFraction` untouched. -/
def scrollTo (s : ViewportState) (x : ℚ) : ViewportState :=
  { s with scrollLeft := x }

/-- Source: `handleWheel` (Ctrl/⌘ + wheel zoom-to-cursor).  `factor` is
1.15 or 0.87 depending on wheel direction, `offsetX` the cursor position
relative to the sequence area. -/
def wheelZoom (w : ℚ) (s : ViewportState) (factor offsetX : ℚ) : ViewportState :=
  let validOffsetX := max 0 (min w offsetX)
  let currentTotalVirtualW := w / s.viewFraction
  let mouseFracGlobal := (s.scrollLeft + validOffsetX) / currentTotalVirtualW
  let newVF := max (1/200) (min 1 (s.viewFraction * factor))
  let newTotalVirtualW := w / newVF
  let newSL := max 0 (min (newTotalVirtualW - w) (mouseFracGlobal * newTotalVirtualW - validOffsetX))
  { scrollLeft := newSL, viewFraction := newVF }

/-- Source: `makeMoveHandler`, branches `dragType = 'left' | 'right'`.
The origin bounds are recomputed from the current state exactly as the
mousedown handler captures them (`curStart = scrollLeft / (seqAreaW /
viewFraction)`, `curEnd = curStart + viewFraction`). -/
def resizeMove (w : ℚ) (s : ViewportState) (isLeft : Bool) (delta : ℚ) : ViewportState :=
  let origStart := s.scrollLeft / (w / s.viewFraction)
  let origEnd := origStart + s.viewFraction
  let newStart := if isLeft then max 0 (min (origEnd - 1/200) (origStart + delta)) else origStart
  let newEnd := if isLeft then origEnd else min 1 (max (origStart + 1/200) (origEnd + delta))
  let newVF := max (1/200) (newEnd - newStart)
  let newTotalW := w / newVF
  { scrollLeft := newStart * newTotalW, viewFraction := newVF }

/-- Source: the `onUp` finalizer of a `'select'` drag, commit branch:
`newVF = e - s; newSL = s * (curSeqAreaW / newVF)` where `s`/`e` are the
ordered selection bounds. -/
def selectCommit (w : ℚ) (s : ViewportState) (a b : ℚ) : ViewportState :=
  let lo := min a b
  let hi := max a b
  let newVF := hi - lo
  { scrollLeft := lo * (w / newVF), viewFraction := newVF }

/-- Reachability of a viewport state from the initial state
`(scrollLeft = 0, viewFraction = 1)` under the exposed operations.
Guards mirror the source: the slider is bounded to `[0.005, 1]`; a scroll
event can only report a value the browser allows (`0 ≤ x ≤ max 0
(totalVirtualW - w)`, the spacer width minus the client width); wheel zoom
uses factor 1.15 or 0.87; resize drags exist only while the blue viewport
box is visible (`viewFraction < 0.99`); a selection commit uses ordered
bounds in `[0,1]` (mouse fractions are clamped) of width at least 0.005.
The pointer-position handle-hit guard of the mousedown handler is dropped,
so this relation over-approximates the behaviours; invariants proved over
it hold for the real system as well. -/
inductive Reachable (w : ℚ) : ViewportState → Prop where
  | init : Reachable w { scrollLeft := 0, viewFraction := 1 }
  | stepZoomIn {s : ViewportState} :
      Reachable w s → Reachable w (zoomIn s)
  | stepZoomOut {s : ViewportState} :
      Reachable w s → Reachable w (zoomOut s)
  | stepSlider {s : ViewportState} (v : ℚ) :
      1/200 ≤ v → v ≤ 1 → Reachable w s → Reachable w (sliderSet s v)
  | stepScroll {s : ViewportState} (x : ℚ) :
      0 ≤ x → x ≤ max 0 (totalVirtualW w s - w) →
      Reachable w s → Reachable w (scrollTo s x)
  | stepWheel {s : ViewportState} (factor offsetX : ℚ) :
      factor = 23/20 ∨ factor = 87/100 →
      Reachable w s → Reachable w (wheelZoom w s factor offsetX)
  | stepResize {s : ViewportState} (isLeft : Bool) (delta : ℚ) :
      s.viewFraction < 99/100 →
      Reachable w s → Reachable w (resizeMove w s isLeft delta)
  | stepSelect {s : ViewportState} (a b : ℚ) :
      0 ≤ a → a ≤ 1 → 0 ≤ b → b ≤ 1 →
      1/200 ≤ max a b - min a b →
      Reachable w s → Reachable w (selectCommit w s a b)

/-! ### Selecting-drag session (ephemeral selection range) -/

/-- Viewport state plus the ephemeral `selectionRange` React state. -/
structure DragState where
  viewport : ViewportState
  selection : Option (ℚ × ℚ)
deriving DecidableEq

/-- Mousedown in `'select'` mode: `setSelectionRange({ start: mouseXFrac,
end: mouseXFrac })`; the viewport is not touched. -/
def selectDown (st : DragState) (m : ℚ) : DragState :=
  { st with selection := some (m, m) }

/-- Pointer move in `'select'` mode: `setSelectionRange({ start:
origMouseFrac, end: clamp01 (origMouseFrac + deltaFrac) })`; the viewport
is not touched. -/
def selectMove (st : DragState) (origMouseFrac delta : ℚ) : DragState :=
  { st with selection := some (origMouseFrac, max 0 (min 1 (origMouseFrac + delta))) }

/-- Pointer up in `'select'` mode: commit `setFromSelection` of the ordered
bounds when the width is at least 0.005, otherwise cancel; the selection
rectangle is cleared either way. -/
def selectUp (w : ℚ) (st : DragState) : DragState :=
  match st.selection with
  | none => st
  | some (a, b) =>
    let lo := min a b
    let hi := max a b
    if hi - lo < 1/200 then { st with selection := none }
    else { viewport := selectCommit w st.viewport a b, selection := none }

/-- A whole Selecting drag: mousedown at (clamped) fraction `m` followed by
a sequence of move events; each move event carries its own cumulative
`deltaFrac` measured from the mousedown position. -/
def selectDrag (st : DragState) (m : ℚ) (deltas : List ℚ) : DragState :=
  deltas.foldl (fun s d => selectMove s m d) (selectDown st m)

/-! ### Display-mode controller (bars / letters with hysteresis) -/

def BP_THRESHOLD : ℚ := 100

def HYSTERESIS : ℚ := 15

inductive Mode where
  | bars : Mode
  | letters : Mode
deriving DecidableEq

/-- Source: the auto-switch `useEffect`: in bars mode switch to letters when
`visibleBases < BP_THRESHOLD - HYSTERESIS`; in letters mode switch to bars
when `visibleBases > BP_THRESHOLD + HYSTERESIS`. -/
def modeStep (m : Mode) (visibleBases : ℚ) : Mode :=
  match m with
  | Mode.bars => if visibleBases < BP_THRESHOLD - HYSTERESIS then Mode.letters else Mode.bars
  | Mode.letters => if visibleBases > BP_THRESHOLD + HYSTERESIS then Mode.bars else Mode.letters

/-- Initial state of `viewMode`: `useState<'bars' | 'letters'>('bars')`. -/
def modeInit : Mode := Mode.bars

/-- The trace of modes emitted while feeding a sequence of `visibleBases`
values to the controller (including the initial mode). -/
def modeTrace (m : Mode) : List ℚ → List Mode
  | [] => [m]
  | v :: vs => m :: modeTrace (modeStep m v) vs

/-- Number of direct transitions `d.1 → d.2` occurring in a mode trace. -/
def switchCount (d : Mode × Mode) : List Mode → ℕ
  | a :: b :: rest => (if a = d.1 ∧ b = d.2 then 1 else 0) + switchCount d (b :: rest)
  | _ => 0

/-! ### Coordinate mapper -/

/-- Source (`mapUngappedToGapped`): scan the gapped sequence left to right;
on each non-gap character, if the running ungapped count equals the target
return the current column, else increment the count; falling off the end
returns `gappedSeq.length`. -/
def mapUngappedToGapped (target : ℕ) : List Char → ℕ
  | [] => 0
  | c :: rest =>
    if c = '-' then 1 + mapUngappedToGapped target rest
    else
      match target with
      | 0 => 0
      | t + 1 => 1 + mapUngappedToGapped t rest

/-- Number of non-gap characters of a row (its raw, ungapped length). -/
def rawLen (s : List Char) : ℕ :=
  s.countP (fun c => c != '-')

/-- Number of non-gap characters strictly before column `g`. -/
def countNonGapBefore (s : List Char) (g : ℕ) : ℕ :=
  (s.take g).countP (fun c => c != '-')

/-! ### FASTA parser -/

/-- Whitespace stripped by `String.prototype.trim` (modelled for the ASCII
whitespace characters that occur in alignment text). -/
def isSpaceChar (c : Char) : Bool :=
  c == ' ' || c == '\t' || c == '\n' || c == '\r'

/-- `trim()`: drop whitespace from both ends. -/
def trimL (s : List Char) : List Char :=
  ((s.dropWhile isSpaceChar).reverse.dropWhile isSpaceChar).reverse

/-- `l.startsWith('>')`. -/
def isMarker (l : List Char) : Bool :=
  l.head? == some '>'

/-- The parsing loop: `cur` is the pending label, `seq` the accumulated
sequence.  On a marker line push the pending row if `cur` is truthy (a
non-empty string), then restart with the trimmed remainder as label; on any
other line append the trimmed line to `seq`; at the end push the pending
row if `cur` is truthy. -/
def parseLines : List (List Char) → List Char → List Char → List (List Char × List Char)
  | [], cur, seq => if cur = [] then [] else [(cur, seq)]
  | l :: rest, cur, seq =>
    if isMarker l then
      (if cur = [] then [] else [(cur, seq)]) ++ parseLines rest (trimL l.tail) []
    else
      parseLines rest cur (seq ++ trimL l)

/-- Source: the `sequences` memo.  Empty input short-circuits to `[]`
(`if (!alignment) return []`); otherwise the input is trimmed, split on
newlines and folded by the parsing loop. -/
def parseFasta (alignment : List Char) : List (List Char × List Char) :=
  if alignment = [] then []
  else parseLines (List.splitOn '\n' (trimL alignment)) [] []

/-- Declarative grouping of marker-delimited records: one row per marker
line with non-empty trimmed label, whose sequence is the concatenation of
the trimmed following lines up to the next marker; lines before the first
marker and records with empty labels are dropped.  Used as the
specification side of the parser refinement. -/
def specParse : List (List Char) → List (List Char × List Char)
  | [] => []
  | l :: rest =>
    if isMarker l then
      (if trimL l.tail = [] then []
       else [(trimL l.tail, ((rest.takeWhile fun x => !isMarker x).map trimL).flatten)]) ++
        specParse (rest.dropWhile fun x => !isMarker x)
    else specParse rest
termination_by l => l.length
decreasing_by
  all_goals simp only [List.length_cons]
  · exact Nat.lt_succ_of_le (List.dropWhile_sublist _).length_le
  · exact Nat.lt_succ_self _

/-! ### Per-cell characters and row extents -/

/-- Source: `(s.seq[col] || '-').toUpperCase()`. -/
def charAt (s : List Char) (col : ℕ) : Char :=
  (s.getD col '-').toUpper

/-- Index of the first non-gap character, if any. -/
def firstNonGap : List Char → Option ℕ
  | [] => none
  | c :: rest => if c != '-' then some 0 else (firstNonGap rest).map (· + 1)

/-- Index of the last non-gap character, if any. -/
def lastNonGap : List Char → Option ℕ
  | [] => none
  | c :: rest =>
    match lastNonGap rest with
    | some i => some (i + 1)
    | none => if c != '-' then some 0 else none

/-- Source `seqStart`: first non-gap index, or 0 when the row is all gaps. -/
def seqStart (s : List Char) : ℕ :=
  (firstNonGap s).getD 0

/-- Source `seqEnd`: last non-gap index, or `seq.length - 1` when the row is
all gaps (so `-1` for the empty row, hence the `ℤ` codomain). -/
def seqEnd (s : List Char) : ℤ :=
  match lastNonGap s with
  | some i => (i : ℤ)
  | none => (s.length : ℤ) - 1

/-! ### Overlay composition (per-cell paint decisions) -/

inductive Paint where
  | internalDel : Paint
  | externalGap : Paint
  | insertion : Paint
  | mismatch : Paint
  | primer1 : Paint
  | primer2 : Paint
  | matchNeutral : Paint
deriving DecidableEq

/-- A primer span in gapped column coordinates.  The source field `end` is a
Lean keyword and is rendered `stop`. -/
structure Span where
  start : ℕ
  stop : ℕ
deriving DecidableEq

structure PrimerPair where
  p1 : Span
  p2 : Span
deriving DecidableEq

/-- Letters-mode cell paint (the `viewMode === 'letters'` branch of `draw`):
first the gap check (internal deletion inside `[seqStart, seqEnd]` on
non-reference rows, pad-gap gray otherwise), then insertion vs the
reference, then mismatch, then the match branch in which reference-row
cells inside a primer span are tinted. -/
def letterCell (row query : List Char) (isQuery : Bool) (primers : Option PrimerPair)
    (col : ℕ) : Paint :=
  let ch := charAt row col
  let qch := charAt query col
  let sStart := seqStart row
  let sEnd := seqEnd row
  if ch = '-' then
    if isQuery = false ∧ sStart ≤ col ∧ (col : ℤ) ≤ sEnd then Paint.internalDel
    else Paint.externalGap
  else if isQuery = false ∧ qch = '-' ∧ ch ≠ '-' then Paint.insertion
  else if isQuery = false ∧ ch ≠ qch ∧ qch ≠ '-' then Paint.mismatch
  else
    match primers with
    | some pr =>
      if isQuery = true then
        if pr.p1.start ≤ col ∧ col < pr.p1.stop then Paint.primer1
        else if pr.p2.start ≤ col ∧ col < pr.p2.stop then Paint.primer2
        else Paint.matchNeutral
      else Paint.matchNeutral
    | none => Paint.matchNeutral

/-- Bars-mode overlay of `draw` (`none` = no colored rectangle over the
presence bar).  Gap cells are skipped up front (`if (ch === '-') continue`),
then the violet insertion/internal-deletion test, the mismatch test, and
the reference-row primer tint. -/
def barsCell (row query : List Char) (isQuery : Bool) (primers : Option PrimerPair)
    (col : ℕ) : Option Paint :=
  let ch := charAt row col
  let qch := charAt query col
  let sStart := seqStart row
  let sEnd := seqEnd row
  if ch = '-' then none
  else
    let isInternalDeletion := isQuery = false ∧ ch = '-' ∧ sStart ≤ col ∧ (col : ℤ) ≤ sEnd
    let isInsertion := isQuery = false ∧ qch = '-' ∧ ch ≠ '-'
    if isInternalDeletion ∨ isInsertion then some Paint.internalDel
    else if isQuery = false ∧ ch ≠ '-' ∧ ch ≠ qch ∧ qch ≠ '-' then some Paint.mismatch
    else
      match primers with
      | some pr =>
        if isQuery = true ∧ ch ≠ '-' then
          if pr.p1.start ≤ col ∧ col < pr.p1.stop then some Paint.primer1
          else if pr.p2.start ≤ col ∧ col < pr.p2.stop then some Paint.primer2
          else none
        else none
      | none => none

/-- Minimap per-cell overlay of `drawMinimap` (no `continue`, no primers in
the row loop): violet when internal deletion or insertion, red on mismatch,
nothing otherwise. -/
def minimapCell (row query : List Char) (isQuery : Bool) (col : ℕ) : Option Paint :=
  let ch := charAt row col
  let qch := charAt query col
  let sStart := seqStart row
  let sEnd := seqEnd row
  let isInternalDeletion := isQuery = false ∧ ch = '-' ∧ sStart ≤ col ∧ (col : ℤ) ≤ sEnd
  let isInsertion := isQuery = false ∧ qch = '-' ∧ ch ≠ '-'
  if isInternalDeletion ∨ isInsertion then some Paint.internalDel
  else if isQuery = false ∧ ch ≠ '-' ∧ ch ≠ qch ∧ qch ≠ '-' then some Paint.mismatch
  else none

/-! ### Column statistics (GC content) -/

/-- Characters of one alignment column across all rows, uppercased with the
out-of-range `'-'` default. -/
def colChars (seqs : List (List Char)) (col : ℕ) : List Char :=
  seqs.map (fun s => charAt s col)

/-- `total` of the `gcContent` loop: non-gap characters in the column. -/
def nonGapCount (seqs : List (List Char)) (col : ℕ) : ℕ :=
  (colChars seqs col).countP (fun ch => ch != '-')

/-- `gcCount` of the `gcContent` loop: G/C characters in the column. -/
def gcCountCol (seqs : List (List Char)) (col : ℕ) : ℕ :=
  (colChars seqs col).countP (fun ch => ch == 'G' || ch == 'C')

/-- Source: `gc[col] = total > 0 ? gcCount / total : 0`. -/
def gcContent (seqs : List (List Char)) (col : ℕ) : ℚ :=
  if 0 < nonGapCount seqs col then
    (gcCountCol seqs col : ℚ) / (nonGapCount seqs col : ℚ)
  else 0

/-! ### Selection statistics over the visible range -/

structure SelStats where
  g : ℕ
  c : ℕ
  a : ℕ
  t : ℕ
  total : ℕ
  gcPct : ℚ
deriving DecidableEq

/-- `query.seq.slice(startCol, endCol + 1).toUpperCase()`. -/
def sliceUpper (q : List Char) (startCol endCol : ℕ) : List Char :=
  ((q.drop startCol).take (endCol + 1 - startCol)).map Char.toUpper

/-- One step of the `selectionStats` character loop (the `else if` chain,
then the non-gap total). -/
def selStatsStep (st : ℕ × ℕ × ℕ × ℕ × ℕ) (ch : Char) : ℕ × ℕ × ℕ × ℕ × ℕ :=
  let g := st.1
  let c := st.2.1
  let a := st.2.2.1
  let t := st.2.2.2.1
  let total := st.2.2.2.2
  let counts :=
    if ch = 'G' then (g + 1, c, a, t)
    else if ch = 'C' then (g, c + 1, a, t)
    else if ch = 'A' then (g, c, a + 1, t)
    else if ch = 'T' then (g, c, a, t + 1)
    else (g, c, a, t)
  let total := if ch ≠ '-' then total + 1 else total
  (counts.1, counts.2.1, counts.2.2.1, counts.2.2.2, total)

/-- Source: the `selectionStats` memo, for the reference row (`sequences[0]`)
over the visible columns `[startCol, endCol]`.  `gcPct = total > 0 ?
((g + c) / total) * 100 : 0`. -/
def selectionStats (query : List Char) (startCol endCol : ℕ) : SelStats :=
  let sub := sliceUpper query startCol endCol
  let r := sub.foldl selStatsStep (0, 0, 0, 0, 0)
  { g := r.1, c := r.2.1, a := r.2.2.1, t := r.2.2.2.1, total := r.2.2.2.2,
    gcPct := if 0 < r.2.2.2.2 then ((r.1 : ℚ) + (r.2.1 : ℚ)) / (r.2.2.2.2 : ℚ) * 100 else 0 }

/-- Top-level guard of the memo: `if (sequences.length === 0) return null`,
else compute from `sequences[0]` only. -/
def selectionStatsTop (seqs : List (List Char)) (startCol endCol : ℕ) : Option SelStats :=
  match seqs with
  | [] => none
  | q :: _ => some (selectionStats q startCol endCol)

/-! ## Theorems -/

/-! ### C6: zoom factors -/

/-- C6 counterexample: `zoomOut` multiplies `viewFraction` by 1.33, which is
not the inverse of 0.75 — from `viewFraction = 1/2`, the code yields
`0.665`, while dividing by 0.75 would yield `2/3`. -/
theorem C6_counterexample :
    (zoomOut { scrollLeft := 0, viewFraction := 1/2 }).viewFraction = 133/200 ∧
    (133/200 : ℚ) ≠ (1/2 : ℚ) / (3/4) := by
  constructor
  · show min 1 ((1/2 : ℚ) * (133/100)) = 133/200
    norm_num
  · norm_num

/-- C6 (amended): `zoomIn` multiplies `viewFraction` by 0.75 and `zoomOut`
by 1.33 (not by 1/0.75); on the state space `0.005 ≤ viewFraction ≤ 1` both
results agree with the full clamp to `[0.005, 1]`, neither touches
`scrollLeft`, and three `zoomIn` calls from `viewFraction = 1` yield
`0.75³ = 27/64 = 0.421875`, above the 0.005 floor. -/
theorem C6_zoom_clamped (s : ViewportState)
    (h1 : 1/200 ≤ s.viewFraction) (h2 : s.viewFraction ≤ 1) :
    (zoomIn s).viewFraction = max (1/200) (min 1 (s.viewFraction * (3/4))) ∧
    (zoomOut s).viewFraction = max (1/200) (min 1 (s.viewFraction * (133/100))) ∧
    (zoomIn s).scrollLeft = s.scrollLeft ∧
    (zoomOut s).scrollLeft = s.scrollLeft ∧
    (zoomIn (zoomIn (zoomIn { scrollLeft := 0, viewFraction := 1 }))).viewFraction = 27/64 ∧
    (1/200 : ℚ) < 27/64 := by
  refine ⟨?_, ?_, rfl, rfl, ?_, by norm_num⟩
  · have hle : s.viewFraction * (3/4) ≤ 1 := by linarith
    show max (1/200) (s.viewFraction * (3/4)) = max (1/200) (min 1 (s.viewFraction * (3/4)))
    rw [min_eq_right hle]
  · have hge : (1/200 : ℚ) ≤ min 1 (s.viewFraction * (133/100)) :=
      le_min (by norm_num) (by linarith)
    show min 1 (s.viewFraction * (133/100)) = max (1/200) (min 1 (s.viewFraction * (133/100)))
    rw [max_eq_right hge]
  · show max (1/200)
      ((max (1/200) ((max (1/200) ((1 : ℚ) * (3/4))) * (3/4))) * (3/4)) = 27/64
    norm_num

/-- C6 witness: the amended statement evaluated at `viewFraction = 1/2`. -/
theorem C6_zoom_clamped_witness :
    (zoomIn { scrollLeft := 0, viewFraction := 1/2 }).viewFraction
      = max (1/200) (min 1 ((1/2 : ℚ) * (3/4))) :=
  (C6_zoom_clamped { scrollLeft := 0, viewFraction := 1/2 }
    (by norm_num) (by norm_num)).1

/-! ### C3: coordinate mapper -/

/-- `mapUngappedToGapped` is monotone in the ungapped index. -/
theorem mapUngappedToGapped_mono (s : List Char) :
    ∀ u1 u2 : ℕ, u1 ≤ u2 →
      mapUngappedToGapped u1 s ≤ mapUngappedToGapped u2 s := by
  induction s with
  | nil => intro u1 u2 _; exact le_rfl
  | cons c rest ih =>
    intro u1 u2 h
    by_cases hc : c = '-'
    · simpa [mapUngappedToGapped, hc] using ih u1 u2 h
    · cases u1 with
      | zero => simp [mapUngappedToGapped, hc]
      | succ k =>
        cases u2 with
        | zero => omega
        | succ m =>
          simpa [mapUngappedToGapped, hc] using ih k m (Nat.succ_le_succ_iff.mp h)

/-- On a gap-free row the map is the identity up to the row length. -/
theorem mapUngappedToGapped_gapfree (s : List Char) :
    ∀ i : ℕ, (∀ c ∈ s, c ≠ '-') → i ≤ s.length →
      mapUngappedToGapped i s = i := by
  induction s with
  | nil => intro i _ hi; simp at hi; simp [mapUngappedToGapped, hi]
  | cons c rest ih =>
    intro i hall hi
    have hc : c ≠ '-' := hall c (by simp)
    cases i with
    | zero => simp [mapUngappedToGapped, hc]
    | succ k =>
      have hk : k ≤ rest.length := by simp at hi; omega
      simp [mapUngappedToGapped, hc, ih k (fun x hx => hall x (by simp [hx])) hk]
      omega

/-- Round trip: the number of non-gap characters strictly before the
returned column equals the ungapped index (when in range). -/
theorem mapUngappedToGapped_roundtrip (s : List Char) :
    ∀ u : ℕ, u < rawLen s →
      countNonGapBefore s (mapUngappedToGapped u s) = u := by
  induction s with
  | nil => intro u hu; simp [rawLen] at hu
  | cons c rest ih =>
    intro u hu
    by_cases hc : c = '-'
    · have hu2 : u < rawLen rest := by
        simpa [rawLen, List.countP_cons, hc] using hu
      have : mapUngappedToGapped u (c :: rest) = (mapUngappedToGapped u rest) + 1 := by
        simp [mapUngappedToGapped, hc]; omega
      rw [this]
      simpa [countNonGapBefore, List.countP_cons, hc] using ih u hu2
    · cases u with
      | zero => simp [mapUngappedToGapped, hc, countNonGapBefore]
      | succ k =>
        have hk : k < rawLen rest := by
          simpa [rawLen, List.countP_cons, hc] using hu
        have : mapUngappedToGapped (k + 1) (c :: rest)
            = (mapUngappedToGapped k rest) + 1 := by
          simp [mapUngappedToGapped, hc]; omega
        rw [this]
        simp [countNonGapBefore, List.countP_cons, hc]
        simpa [countNonGapBefore] using ih k hk

/-- Past the raw length the map returns the padded row length. -/
theorem mapUngappedToGapped_sentinel (s : List Char) :
    ∀ u : ℕ, rawLen s ≤ u → mapUngappedToGapped u s = s.length := by
  induction s with
  | nil => intro u _; rfl
  | cons c rest ih =>
    intro u hu
    by_cases hc : c = '-'
    · have : rawLen rest ≤ u := by simpa [rawLen, List.countP_cons, hc] using hu
      simp [mapUngappedToGapped, hc, ih u this]
      omega
    · have h1 : rawLen rest + 1 ≤ u := by
        simpa [rawLen, List.countP_cons, hc] using hu
      cases u with
      | zero => omega
      | succ k =>
        have : rawLen rest ≤ k := by omega
        simp [mapUngappedToGapped, hc, ih k this]
        omega

/-- C3 counterexample: on a gap-free row the identity `toGapped(i) = i` fails
for indices beyond the row length — `mapUngappedToGapped 3 "AB" = 2 ≠ 3`
(the sentinel wins there), so the claim's unrestricted "for every i" is
false. -/
theorem C3_counterexample :
    ¬ (∀ (s : List Char) (i : ℕ),
        (∀ c ∈ s, c ≠ '-') → mapUngappedToGapped i s = i) := by
  intro h
  exact absurd (h ['A', 'B'] 3 (by decide)) (by decide)

/-- C3 (amended): `mapUngappedToGapped` is monotone non-decreasing; on a
gap-free row it is the identity for every index up to the row length (not
beyond, where the sentinel applies); for an index below the raw length the
count of non-gap characters strictly before the returned column equals the
index; and from the raw length on the result is the padded row length. -/
theorem C3_mapUngapped_props :
    (∀ (s : List Char) (u1 u2 : ℕ), u1 ≤ u2 →
        mapUngappedToGapped u1 s ≤ mapUngappedToGapped u2 s) ∧
    (∀ (s : List Char) (i : ℕ), (∀ c ∈ s, c ≠ '-') → i ≤ s.length →
        mapUngappedToGapped i s = i) ∧
    (∀ (s : List Char) (u : ℕ), u < rawLen s →
        countNonGapBefore s (mapUngappedToGapped u s) = u) ∧
    (∀ (s : List Char) (u : ℕ), rawLen s ≤ u → mapUngappedToGapped u s = s.length) :=
  ⟨fun s => mapUngappedToGapped_mono s,
   fun s => mapUngappedToGapped_gapfree s,
   fun s => mapUngappedToGapped_roundtrip s,
   fun s => mapUngappedToGapped_sentinel s⟩

/-- C3 witness: the amended statement evaluated on the row `"A-B"` (and
`"AB"` for the gap-free part). -/
theorem C3_mapUngapped_witness :
    mapUngappedToGapped 0 ['A', '-', 'B'] ≤ mapUngappedToGapped 2 ['A', '-', 'B'] ∧
    mapUngappedToGapped 1 ['A', 'B'] = 1 ∧
    countNonGapBefore ['A', '-', 'B'] (mapUngappedToGapped 1 ['A', '-', 'B']) = 1 ∧
    mapUngappedToGapped 5 ['A', '-', 'B'] = 3 :=
  ⟨C3_mapUngapped_props.1 _ 0 2 (by norm_num),
   C3_mapUngapped_props.2.1 _ 1 (by decide) (by decide),
   C3_mapUngapped_props.2.2.1 _ 1 (by decide),
   C3_mapUngapped_props.2.2.2 _ 5 (by decide)⟩

/-! ### C4: mode controller with hysteresis -/

/-- Bridge: the bars-mode threshold is 85 visible bases. -/
theorem modeStep_bars (v : ℚ) :
    modeStep Mode.bars v = if v < 85 then Mode.letters else Mode.bars := by
  show (if v < BP_THRESHOLD - HYSTERESIS then Mode.letters else Mode.bars) = _
  norm_num [BP_THRESHOLD, HYSTERESIS]

/-- Bridge: the letters-mode threshold is 115 visible bases. -/
theorem modeStep_letters (v : ℚ) :
    modeStep Mode.letters v = if v > 115 then Mode.bars else Mode.letters := by
  show (if v > BP_THRESHOLD + HYSTERESIS then Mode.bars else Mode.letters) = _
  norm_num [BP_THRESHOLD, HYSTERESIS]

/-- A mode trace always starts with the start mode. -/
theorem modeTrace_head (m : Mode) (l : List ℚ) :
    ∃ t, modeTrace m l = m :: t := by
  cases l <;> exact ⟨_, rfl⟩

/-- Unfolding a switch count across the head of a trace. -/
theorem switchCount_cons_trace (d : Mode × Mode) (a m : Mode) (l : List ℚ) :
    switchCount d (a :: modeTrace m l) =
      (if a = d.1 ∧ m = d.2 then 1 else 0) + switchCount d (modeTrace m l) := by
  cases l <;> rfl

/-- From bars, with every value at or above 85, the controller never
switches. -/
theorem switchCount_bars_high (l : List ℚ) (h : ∀ x ∈ l, ¬ x < 85) :
    switchCount (Mode.bars, Mode.letters) (modeTrace Mode.bars l) = 0 ∧
    switchCount (Mode.letters, Mode.bars) (modeTrace Mode.bars l) = 0 := by
  induction l with
  | nil => exact ⟨rfl, rfl⟩
  | cons v vs ih =>
    have hv : ¬ v < 85 := h v (by simp)
    have hstep : modeStep Mode.bars v = Mode.bars := by
      rw [modeStep_bars, if_neg hv]
    have e : modeTrace Mode.bars (v :: vs) = Mode.bars :: modeTrace Mode.bars vs := by
      show Mode.bars :: modeTrace (modeStep Mode.bars v) vs = _
      rw [hstep]
    have ih2 := ih (fun x hx => h x (by simp [hx]))
    rw [e, switchCount_cons_trace, switchCount_cons_trace]
    simp [ih2.1, ih2.2]

/-- From letters, with every value at or below 115, the controller never
switches. -/
theorem switchCount_letters_low (l : List ℚ) (h : ∀ x ∈ l, ¬ x > 115) :
    switchCount (Mode.bars, Mode.letters) (modeTrace Mode.letters l) = 0 ∧
    switchCount (Mode.letters, Mode.bars) (modeTrace Mode.letters l) = 0 := by
  induction l with
  | nil => exact ⟨rfl, rfl⟩
  | cons v vs ih =>
    have hv : ¬ v > 115 := h v (by simp)
    have hstep : modeStep Mode.letters v = Mode.letters := by
      rw [modeStep_letters, if_neg hv]
    have e : modeTrace Mode.letters (v :: vs) = Mode.letters :: modeTrace Mode.letters vs := by
      show Mode.letters :: modeTrace (modeStep Mode.letters v) vs = _
      rw [hstep]
    have ih2 := ih (fun x hx => h x (by simp [hx]))
    rw [e, switchCount_cons_trace, switchCount_cons_trace]
    simp [ih2.1, ih2.2]

/-- From letters along a non-decreasing input: never a bars→letters switch,
at most one letters→bars switch. -/
theorem switchCount_letters_sorted (l : List ℚ) (h : List.Sorted (· ≤ ·) l) :
    switchCount (Mode.bars, Mode.letters) (modeTrace Mode.letters l) = 0 ∧
    switchCount (Mode.letters, Mode.bars) (modeTrace Mode.letters l) ≤ 1 := by
  induction l with
  | nil => exact ⟨rfl, by norm_num [switchCount, modeTrace]⟩
  | cons v vs ih =>
    rw [List.sorted_cons] at h
    by_cases hv : v > 115
    · have hstep : modeStep Mode.letters v = Mode.bars := by
        rw [modeStep_letters, if_pos hv]
      have e : modeTrace Mode.letters (v :: vs) = Mode.letters :: modeTrace Mode.bars vs := by
        show Mode.letters :: modeTrace (modeStep Mode.letters v) vs = _
        rw [hstep]
      have hvs : ∀ x ∈ vs, ¬ x < 85 := by
        intro x hx
        have := h.1 x hx
        linarith
      have hb := switchCount_bars_high vs hvs
      rw [e, switchCount_cons_trace, switchCount_cons_trace]
      simp [hb.1, hb.2]
    · have hstep : modeStep Mode.letters v = Mode.letters := by
        rw [modeStep_letters, if_neg hv]
      have e : modeTrace Mode.letters (v :: vs) = Mode.letters :: modeTrace Mode.letters vs := by
        show Mode.letters :: modeTrace (modeStep Mode.letters v) vs = _
        rw [hstep]
      have ih2 := ih h.2
      rw [e, switchCount_cons_trace, switchCount_cons_trace]
      constructor
      · simp [ih2.1]
      · simpa using ih2.2

/-- From bars along a non-decreasing input: at most one switch in each
direction. -/
theorem switchCount_bars_sorted (l : List ℚ) (h : List.Sorted (· ≤ ·) l) :
    switchCount (Mode.bars, Mode.letters) (modeTrace Mode.bars l) ≤ 1 ∧
    switchCount (Mode.letters, Mode.bars) (modeTrace Mode.bars l) ≤ 1 := by
  induction l with
  | nil => exact ⟨by norm_num [switchCount, modeTrace], by norm_num [switchCount, modeTrace]⟩
  | cons v vs ih =>
    rw [List.sorted_cons] at h
    by_cases hv : v < 85
    · have hstep : modeStep Mode.bars v = Mode.letters := by
        rw [modeStep_bars, if_pos hv]
      have e : modeTrace Mode.bars (v :: vs) = Mode.bars :: modeTrace Mode.letters vs := by
        show Mode.bars :: modeTrace (modeStep Mode.bars v) vs = _
        rw [hstep]
      have hl := switchCount_letters_sorted vs h.2
      rw [e, switchCount_cons_trace, switchCount_cons_trace]
      constructor
      · simp [hl.1]
      · simpa using hl.2
    · have hstep : modeStep Mode.bars v = Mode.bars := by
        rw [modeStep_bars, if_neg hv]
      have e : modeTrace Mode.bars (v :: vs) = Mode.bars :: modeTrace Mode.bars vs := by
        show Mode.bars :: modeTrace (modeStep Mode.bars v) vs = _
        rw [hstep]
      have ih2 := ih h.2
      rw [e, switchCount_cons_trace, switchCount_cons_trace]
      constructor
      · simpa using ih2.1
      · simpa using ih2.2

/-- From bars along a non-increasing input: at most one switch in each
direction. -/
theorem switchCount_bars_anti (l : List ℚ) (h : List.Sorted (· ≥ ·) l) :
    switchCount (Mode.bars, Mode.letters) (modeTrace Mode.bars l) ≤ 1 ∧
    switchCount (Mode.letters, Mode.bars) (modeTrace Mode.bars l) ≤ 1 := by
  induction l with
  | nil => exact ⟨by norm_num [switchCount, modeTrace], by norm_num [switchCount, modeTrace]⟩
  | cons v vs ih =>
    rw [List.sorted_cons] at h
    by_cases hv : v < 85
    · have hstep : modeStep Mode.bars v = Mode.letters := by
        rw [modeStep_bars, if_pos hv]
      have e : modeTrace Mode.bars (v :: vs) = Mode.bars :: modeTrace Mode.letters vs := by
        show Mode.bars :: modeTrace (modeStep Mode.bars v) vs = _
        rw [hstep]
      have hvs : ∀ x ∈ vs, ¬ x > 115 := by
        intro x hx
        have := h.1 x hx
        linarith
      have hl := switchCount_letters_low vs hvs
      rw [e, switchCount_cons_trace, switchCount_cons_trace]
      constructor
      · simp [hl.1]
      · simp [hl.2]
    · have hstep : modeStep Mode.bars v = Mode.bars := by
        rw [modeStep_bars, if_neg hv]
      have e : modeTrace Mode.bars (v :: vs) = Mode.bars :: modeTrace Mode.bars vs := by
        show Mode.bars :: modeTrace (modeStep Mode.bars v) vs = _
        rw [hstep]
      have ih2 := ih h.2
      rw [e, switchCount_cons_trace, switchCount_cons_trace]
      constructor
      · simpa using ih2.1
      · simpa using ih2.2

/-- C4: the display mode starts as bars; bars→letters fires exactly when
`visibleBases < 85` and letters→bars exactly when `visibleBases > 115`;
along any monotone sequence of `visibleBases` values the emitted mode
sequence contains at most one switch per direction (no oscillation inside
the 30-unit deadband). -/
theorem C4_mode_controller (l : List ℚ)
    (h : List.Sorted (· ≤ ·) l ∨ List.Sorted (· ≥ ·) l) :
    modeInit = Mode.bars ∧
    (∀ v : ℚ, modeStep Mode.bars v = Mode.letters ↔ v < 85) ∧
    (∀ v : ℚ, modeStep Mode.letters v = Mode.bars ↔ v > 115) ∧
    switchCount (Mode.bars, Mode.letters) (modeTrace modeInit l) ≤ 1 ∧
    switchCount (Mode.letters, Mode.bars) (modeTrace modeInit l) ≤ 1 := by
  refine ⟨rfl, ?_, ?_, ?_, ?_⟩
  · intro v
    rw [modeStep_bars]
    by_cases hv : v < 85 <;> simp [hv]
  · intro v
    rw [modeStep_letters]
    by_cases hv : v > 115 <;> simp [hv]
  · cases h with
    | inl hs => exact (switchCount_bars_sorted l hs).1
    | inr hs => exact (switchCount_bars_anti l hs).1
  · cases h with
    | inl hs => exact (switchCount_bars_sorted l hs).2
    | inr hs => exact (switchCount_bars_anti l hs).2

/-- C4 witness: the controller fed the increasing sequence `[80, 120]`
switches bars→letters once and letters→bars once. -/
theorem C4_mode_controller_witness :
    switchCount (Mode.bars, Mode.letters) (modeTrace modeInit [80, 120]) ≤ 1 :=
  (C4_mode_controller [80, 120]
    (Or.inl (by simp [List.sorted_cons]; norm_num))).2.2.2.1

/-! ### C1: viewport invariant -/

/-- C1 counterexample: the upper scroll bound is not an invariant.  With a
sequence-area width of 760, the reachable chain slider(1/2) → scroll to the
then-maximal 760 → `zoomOut` leaves `scrollLeft = 760` while the new
`totalVirtualWidth − visibleWidth` is only `760/(133/200) − 760 ≈ 382.9`:
`zoomOut` (like `zoomIn` and the slider) updates only `viewFraction` and
keeps the stale scroll offset. -/
theorem C1_counterexample :
    ¬ (∀ s : ViewportState, Reachable 760 s →
        0 ≤ s.scrollLeft ∧ s.scrollLeft ≤ totalVirtualW 760 s - 760 ∧
        0 < s.viewFraction ∧ s.viewFraction ≤ 1) := by
  intro h
  have h1 : Reachable 760 { scrollLeft := 0, viewFraction := 1 } := Reachable.init
  have h2 : Reachable 760 { scrollLeft := 0, viewFraction := 1/2 } := by
    simpa [sliderSet] using
      Reachable.stepSlider (w := 760) (1/2 : ℚ) (by norm_num) (by norm_num) h1
  have h3 : Reachable 760 { scrollLeft := 760, viewFraction := 1/2 } := by
    simpa [scrollTo] using
      Reachable.stepScroll (w := 760) (760 : ℚ) (by norm_num)
        (by norm_num [totalVirtualW]) h2
  have h4 : Reachable 760 { scrollLeft := 760, viewFraction := 133/200 } := by
    have h5 := Reachable.stepZoomOut (w := 760) h3
    have e : zoomOut { scrollLeft := 760, viewFraction := 1/2 } =
        { scrollLeft := (760 : ℚ), viewFraction := 133/200 } := by
      show ViewportState.mk 760 (min 1 ((1/2 : ℚ) * (133/100))) = ViewportState.mk 760 (133/200)
      norm_num
    rwa [e] at h5
  have hb := (h _ h4).2.1
  rw [totalVirtualW] at hb
  norm_num at hb

/-- A resize-drag move keeps the scroll offset non-negative and the view
fraction at or above the 0.005 floor. -/
theorem resizeMove_bounds (w : ℚ) (hw : 0 < w) (s : ViewportState)
    (hsl : 0 ≤ s.scrollLeft) (hvf : 0 < s.viewFraction) (isLeft : Bool) (delta : ℚ) :
    0 ≤ (resizeMove w s isLeft delta).scrollLeft ∧
    1/200 ≤ (resizeMove w s isLeft delta).viewFraction := by
  simp only [resizeMove]
  constructor
  · refine mul_nonneg ?_
      (le_of_lt (div_pos hw (lt_of_lt_of_le (by norm_num) (le_max_left _ _))))
    by_cases hL : isLeft
    · simp only [hL, if_true]
      exact le_max_left _ _
    · simp only [hL, if_false]
      exact div_nonneg hsl (le_of_lt (div_pos hw hvf))
  · exact le_max_left _ _

/-- C1 (amended): for every reachable viewport state, `0 ≤ scrollOffset` and
`0.005 ≤ viewFraction` hold.  The upper bounds fail: `zoomIn`, `zoomOut`
and the slider leave `scrollOffset` unchanged, so `scrollOffset ≤
totalVirtualWidth − visibleWidth` can be violated after zooming out (see
the counterexample), and a resize drag started from such a stale state can
even push `viewFraction` above 1. -/
theorem C1_reachable_lower_bounds (w : ℚ) (hw : 0 < w)
    (s : ViewportState) (h : Reachable w s) :
    0 ≤ s.scrollLeft ∧ 1/200 ≤ s.viewFraction := by
  induction h with
  | init => norm_num
  | stepZoomIn _ ih =>
    exact ⟨ih.1, le_max_left _ _⟩
  | stepZoomOut _ ih =>
    refine ⟨ih.1, le_min (by norm_num) ?_⟩
    have := ih.2
    linarith
  | stepSlider v hv1 _ _ ih =>
    exact ⟨ih.1, hv1⟩
  | stepScroll x hx0 _ _ ih =>
    exact ⟨hx0, ih.2⟩
  | stepWheel factor offsetX _ _ ih =>
    exact ⟨le_max_left _ _, le_max_left _ _⟩
  | stepResize isLeft delta hvf99 hr ih =>
    rename_i s'
    exact resizeMove_bounds w hw s' ih.1 (lt_of_lt_of_le (by norm_num) ih.2) isLeft delta
  | stepSelect a b ha0 ha1 hb0 hb1 hwidth _ ih =>
    refine ⟨?_, ?_⟩
    · show 0 ≤ min a b * (w / (max a b - min a b))
      exact mul_nonneg (le_min ha0 hb0)
        (le_of_lt (div_pos hw (lt_of_lt_of_le (by norm_num) hwidth)))
    · exact hwidth

/-- C1 witness: the lower-bound invariant evaluated at the initial state. -/
theorem C1_reachable_witness :
    0 ≤ ({ scrollLeft := 0, viewFraction := 1 } : ViewportState).scrollLeft ∧
    1/200 ≤ ({ scrollLeft := 0, viewFraction := 1 } : ViewportState).viewFraction :=
  C1_reachable_lower_bounds 760 (by norm_num) _ Reachable.init

/-! ### C5: selecting drag -/

/-- The viewport is untouched by any sequence of select-mode pointer
moves. -/
theorem foldl_selectMove_viewport (m : ℚ) (deltas : List ℚ) :
    ∀ x : DragState,
      (deltas.foldl (fun s d => selectMove s m d) x).viewport = x.viewport := by
  induction deltas with
  | nil => intro x; rfl
  | cons d ds ih =>
    intro x
    rw [List.foldl_cons, ih]
    rfl

/-- After a mousedown and any sequence of moves the selection range is
present, anchored at the mousedown fraction. -/
theorem selectDrag_selection (st : DragState) (m : ℚ) (deltas : List ℚ) :
    ∃ b, (selectDrag st m deltas).selection = some (m, b) := by
  unfold selectDrag
  induction deltas using List.reverseRecOn with
  | nil => exact ⟨m, rfl⟩
  | append_singleton ds d _ =>
    rw [List.foldl_append]
    exact ⟨_, rfl⟩

/-- Pointer-up always clears the ephemeral selection range. -/
theorem selectUp_clears (w : ℚ) (x : DragState) :
    (selectUp w x).selection = none := by
  rcases x with ⟨vp, _ | ⟨a, b⟩⟩
  · rfl
  · simp only [selectUp]
    split <;> rfl

/-- C5: during a Selecting drag every pointer move changes only the
ephemeral selection range; on pointer-up the selection is cleared, and the
viewport is set from the ordered selection bounds when their width is at
least 0.005 and left exactly as it was before the drag otherwise. -/
theorem C5_selecting_drag (w : ℚ) (st : DragState) (m : ℚ) (deltas : List ℚ) :
    (selectDrag st m deltas).viewport = st.viewport ∧
    (selectUp w (selectDrag st m deltas)).selection = none ∧
    (∀ a b : ℚ, (selectDrag st m deltas).selection = some (a, b) →
      (max a b - min a b < 1/200 →
        (selectUp w (selectDrag st m deltas)).viewport = st.viewport) ∧
      (1/200 ≤ max a b - min a b →
        (selectUp w (selectDrag st m deltas)).viewport =
          { scrollLeft := min a b * (w / (max a b - min a b)),
            viewFraction := max a b - min a b })) := by
  have hview : (selectDrag st m deltas).viewport = st.viewport :=
    foldl_selectMove_viewport m deltas (selectDown st m)
  refine ⟨hview, selectUp_clears w _, ?_⟩
  intro a b hab
  constructor
  · intro hlt
    unfold selectUp
    rw [hab]
    simp only [hlt, if_pos]
    exact hview
  · intro hge
    unfold selectUp
    rw [hab]
    have : ¬ (max a b - min a b < 1/200) := not_lt.mpr hge
    simp only [this, if_neg, not_false_iff]
    rfl

/-- C5 witness: a drag from fraction 1/4 with a final move delta of 1/2
commits `viewFraction = 1/2` and `scrollOffset = 1/4 · (760 / (1/2)) =
380`. -/
theorem C5_selecting_drag_witness :
    (selectUp 760 (selectDrag
        { viewport := { scrollLeft := 0, viewFraction := 1 }, selection := none }
        (1/4) [1/2])).viewport =
      { scrollLeft := 380, viewFraction := (1/2 : ℚ) } := by
  have h := C5_selecting_drag 760
    { viewport := { scrollLeft := 0, viewFraction := 1 }, selection := none } (1/4) [1/2]
  have hsel : (selectDrag
      ({ viewport := { scrollLeft := 0, viewFraction := 1 }, selection := none } : DragState)
      (1/4) [1/2]).selection = some (1/4, 3/4) := by
    show some ((1/4 : ℚ), max 0 (min 1 (1/4 + 1/2))) = some ((1/4 : ℚ), (3/4 : ℚ))
    norm_num
  have h2 := (h.2.2 (1/4) (3/4) hsel).2 (by norm_num)
  rw [h2]
  norm_num

/-! ### C8: per-column GC content -/

/-- Every G/C character of a column is also a non-gap character. -/
theorem gcCountCol_le_nonGapCount (seqs : List (List Char)) (col : ℕ) :
    gcCountCol seqs col ≤ nonGapCount seqs col := by
  unfold gcCountCol nonGapCount
  apply List.countP_mono_left
  intro ch _ h
  simp only [Bool.or_eq_true, beq_iff_eq] at h
  rcases h with h | h <;> subst h <;> decide

/-- C8 counterexample: `gc(col) = 0` does not imply an empty column — a
column holding a single `A` has one non-gap base yet GC fraction 0, so
"equals 0 exactly when the column has zero non-gap bases" fails. -/
theorem C8_counterexample :
    ¬ (∀ (seqs : List (List Char)) (col : ℕ),
        gcContent seqs col = 0 ↔ nonGapCount seqs col = 0) := by
  intro h
  have h1 : gcContent [['A']] 0 = 0 := by
    rw [gcContent, if_pos (by decide : 0 < nonGapCount [['A']] 0),
      show gcCountCol [['A']] 0 = 0 from by decide]
    norm_num
  have h2 := (h [['A']] 0).mp h1
  rw [show nonGapCount [['A']] 0 = 1 from by decide] at h2
  exact one_ne_zero h2

/-- C8 (amended): `gc(col)` is the ratio of G/C bases to non-gap bases
(gaps excluded from both counts), lies in `[0, 1]`, equals 0 whenever the
column has no non-gap bases, and equals 0 exactly when the column has no
G/C bases (an all-`A`/`T`/`N` column also yields 0). -/
theorem C8_gc_content (seqs : List (List Char)) (col : ℕ) :
    0 ≤ gcContent seqs col ∧ gcContent seqs col ≤ 1 ∧
    (nonGapCount seqs col = 0 → gcContent seqs col = 0) ∧
    (gcContent seqs col = 0 ↔ gcCountCol seqs col = 0) ∧
    (0 < nonGapCount seqs col →
      gcContent seqs col = (gcCountCol seqs col : ℚ) / (nonGapCount seqs col : ℚ)) := by
  have hle := gcCountCol_le_nonGapCount seqs col
  by_cases h0 : 0 < nonGapCount seqs col
  · have hpos : (0 : ℚ) < (nonGapCount seqs col : ℚ) := by exact_mod_cast h0
    have heq : gcContent seqs col
        = (gcCountCol seqs col : ℚ) / (nonGapCount seqs col : ℚ) := by
      rw [gcContent, if_pos h0]
    refine ⟨?_, ?_, fun hz => absurd hz (by omega), ?_, fun _ => heq⟩
    · rw [heq]; positivity
    · rw [heq, div_le_one hpos]
      exact_mod_cast hle
    · rw [heq, div_eq_zero_iff]
      constructor
      · rintro (hz | hz)
        · exact_mod_cast hz
        · exact absurd hz (ne_of_gt hpos)
      · intro hz
        left
        exact_mod_cast hz
  · have hng : nonGapCount seqs col = 0 := by omega
    have heq : gcContent seqs col = 0 := by rw [gcContent, if_neg h0]
    refine ⟨by rw [heq], by rw [heq]; norm_num, fun _ => heq, ?_, fun hc => absurd hc h0⟩
    rw [heq]
    exact ⟨fun _ => by omega, fun _ => rfl⟩

/-- C8 witness: an all-gap column yields GC fraction 0. -/
theorem C8_gc_content_witness : gcContent [['-']] 0 = 0 :=
  (C8_gc_content [['-']] 0).2.2.1 (by decide)

/-! ### C2: paint priority and primer spans -/

/-- C2 counterexample: on the reference row a cell whose column lies in the
mapped primer span `[p1.start, p1.end)` but whose character is a gap is
painted with the gap styling, not the primer paint — the gap branch of the
if/else chain precedes the primer check. -/
theorem C2_counterexample :
    ¬ (∀ (query : List Char) (pr : PrimerPair) (col : ℕ),
        pr.p1.start ≤ col → col < pr.p1.stop →
        (letterCell query query true (some pr) col = Paint.primer1 ∨
         letterCell query query true (some pr) col = Paint.primer2)) := by
  intro h
  exact absurd (h ['A', '-', 'C'] ⟨⟨1, 2⟩, ⟨0, 0⟩⟩ 1 (by norm_num) (by norm_num))
    (by decide)

/-- C2 (amended): on the reference row the paints are chosen by a
deterministic first-match chain in which gap styling wins over everything,
then primer 1, then primer 2, then the neutral match; in particular the
primer paint wins for every non-gap reference cell inside the mapped span
(insertion and mismatch never apply to the reference row itself).  The same
priority governs the bars-mode overlay. -/
theorem C2_primer_priority (query : List Char) (pr : PrimerPair) (col : ℕ) :
    letterCell query query true (some pr) col =
      (if charAt query col = '-' then Paint.externalGap
       else if pr.p1.start ≤ col ∧ col < pr.p1.stop then Paint.primer1
       else if pr.p2.start ≤ col ∧ col < pr.p2.stop then Paint.primer2
       else Paint.matchNeutral) ∧
    barsCell query query true (some pr) col =
      (if charAt query col = '-' then none
       else if pr.p1.start ≤ col ∧ col < pr.p1.stop then some Paint.primer1
       else if pr.p2.start ≤ col ∧ col < pr.p2.stop then some Paint.primer2
       else none) ∧
    (charAt query col ≠ '-' → pr.p1.start ≤ col → col < pr.p1.stop →
      letterCell query query true (some pr) col = Paint.primer1) := by
  refine ⟨?_, ?_, ?_⟩
  · by_cases hch : charAt query col = '-' <;> simp [letterCell, hch]
  · by_cases hch : charAt query col = '-' <;> simp [barsCell, hch]
  · intro h1 h2 h3
    simp [letterCell, h1, h2, h3]

/-- C2 witness: a non-gap reference cell inside the primer-1 span is painted
with the primer paint. -/
theorem C2_primer_priority_witness :
    letterCell ['A', 'C', 'G'] ['A', 'C', 'G'] true
      (some { p1 := { start := 1, stop := 2 }, p2 := { start := 0, stop := 0 } }) 1
      = Paint.primer1 :=
  (C2_primer_priority ['A', 'C', 'G']
      { p1 := { start := 1, stop := 2 }, p2 := { start := 0, stop := 0 } } 1).2.2
    (by decide) (by decide) (by decide)

/-! ### C7: internal deletions vs pad gaps -/

/-- Characterization of `firstNonGap`: when it returns an index, that index
holds a non-gap character and everything before it is a gap; when it
returns `none`, the whole row reads as gaps. -/
theorem firstNonGap_spec (s : List Char) :
    (∀ k, firstNonGap s = some k →
      k < s.length ∧ s.getD k '-' ≠ '-' ∧ ∀ j, j < k → s.getD j '-' = '-') ∧
    (firstNonGap s = none → ∀ j, s.getD j '-' = '-') := by
  induction s with
  | nil =>
    refine ⟨fun k hk => by simp [firstNonGap] at hk, fun _ j => by simp⟩
  | cons c rest ih =>
    by_cases hc : (c != '-') = true
    · refine ⟨fun k hk => ?_, fun hk => by simp [firstNonGap, hc] at hk⟩
      have hk0 : k = 0 := by simp [firstNonGap, hc] at hk; omega
      subst hk0
      refine ⟨by simp, by simpa using hc, fun j hj => by omega⟩
    · have hcg : c = '-' := by simpa using hc
      have hunf : firstNonGap (c :: rest) = (firstNonGap rest).map (· + 1) := by
        simp [firstNonGap, hc]
      constructor
      · intro k hk
        rw [hunf] at hk
        cases hr : firstNonGap rest with
        | none => rw [hr] at hk; simp at hk
        | some i =>
          rw [hr] at hk
          simp at hk
          have hi := ih.1 i hr
          subst hk
          refine ⟨by simp; omega, by simpa using hi.2.1, fun j hj => ?_⟩
          cases j with
          | zero => simpa using hcg
          | succ j2 => simpa using hi.2.2 j2 (by omega)
      · intro hk j
        rw [hunf] at hk
        cases hr : firstNonGap rest with
        | none =>
          cases j with
          | zero => simpa using hcg
          | succ j2 => simpa using ih.2 hr j2
        | some i => rw [hr] at hk; simp at hk

/-- Characterization of `lastNonGap`: when it returns an index, that index
holds a non-gap character and everything after it is a gap; when it returns
`none`, the whole row reads as gaps. -/
theorem lastNonGap_spec (s : List Char) :
    (∀ k, lastNonGap s = some k →
      k < s.length ∧ s.getD k '-' ≠ '-' ∧ ∀ j, k < j → s.getD j '-' = '-') ∧
    (lastNonGap s = none → ∀ j, s.getD j '-' = '-') := by
  induction s with
  | nil =>
    refine ⟨fun k hk => by simp [lastNonGap] at hk, fun _ j => by simp⟩
  | cons c rest ih =>
    cases hr : lastNonGap rest with
    | some i =>
      have hunf : lastNonGap (c :: rest) = some (i + 1) := by
        simp [lastNonGap, hr]
      refine ⟨fun k hk => ?_, fun hk => by rw [hunf] at hk; simp at hk⟩
      rw [hunf] at hk
      simp at hk
      have hi := ih.1 i hr
      subst hk
      refine ⟨by simp; omega, by simpa using hi.2.1, fun j hj => ?_⟩
      cases j with
      | zero => omega
      | succ j2 => simpa using hi.2.2 j2 (by omega)
    | none =>
      by_cases hc : (c != '-') = true
      · have hunf : lastNonGap (c :: rest) = some 0 := by
          simp [lastNonGap, hr, hc]
        refine ⟨fun k hk => ?_, fun hk => by rw [hunf] at hk; simp at hk⟩
        rw [hunf] at hk
        simp at hk
        subst hk
        refine ⟨by simp, by simpa using hc, fun j hj => ?_⟩
        cases j with
        | zero => omega
        | succ j2 => simpa using ih.2 hr j2
      · have hcg : c = '-' := by simpa using hc
        have hunf : lastNonGap (c :: rest) = none := by
          simp [lastNonGap, hr, hc]
        refine ⟨fun k hk => by rw [hunf] at hk; simp at hk, fun _ j => ?_⟩
        cases j with
        | zero => simpa using hcg
        | succ j2 => simpa using ih.2 hr j2

/-- An all-gap row has no first non-gap index. -/
theorem firstNonGap_eq_none (s : List Char) (h : ∀ c ∈ s, c = '-') :
    firstNonGap s = none := by
  induction s with
  | nil => rfl
  | cons c rest ih =>
    have hc : c = '-' := h c (by simp)
    simp [firstNonGap, hc, ih (fun x hx => h x (by simp [hx]))]

/-- An all-gap row has no last non-gap index. -/
theorem lastNonGap_eq_none (s : List Char) (h : ∀ c ∈ s, c = '-') :
    lastNonGap s = none := by
  induction s with
  | nil => rfl
  | cons c rest ih =>
    have hc : c = '-' := h c (by simp)
    simp [lastNonGap, hc, ih (fun x hx => h x (by simp [hx]))]

/-- C7 counterexample: in the bars-mode detail view a gap cell lying
strictly inside the row's non-gap extent is never painted — the loop
`continue`s on every gap before the internal-deletion test can fire
(row `"A-A"`, column 1, extent `[0, 2]`). -/
theorem C7_counterexample :
    ¬ (∀ (row query : List Char) (col : ℕ),
        charAt row col = '-' → seqStart row ≤ col → (col : ℤ) ≤ seqEnd row →
        barsCell row query false none col = some Paint.internalDel) := by
  intro h
  exact absurd
    (h ['A', '-', 'A'] ['A', 'A', 'A'] 1 (by decide) (by decide) (by decide))
    (by decide)

/-- C7 (amended): in the minimap a non-reference gap cell is painted as
internal deletion exactly when its column lies in `[seqStart, seqEnd]`,
where `seqStart`/`seqEnd` are the first/last non-gap indices with fallbacks
0 and `length − 1`; consequently leading/trailing pad gaps of a row with at
least one base are never painted, but every cell of an all-gap row is.  In
the bars-mode detail view gap cells are never painted at all (the
internal-deletion branch is unreachable behind the gap `continue`). -/
theorem C7_internal_deletion (row query : List Char) (col : ℕ) :
    (charAt row col = '-' →
      ((minimapCell row query false col = some Paint.internalDel ↔
          seqStart row ≤ col ∧ (col : ℤ) ≤ seqEnd row) ∧
        barsCell row query false none col = none)) ∧
    (∀ i : ℕ, row.getD i '-' ≠ '-' → seqStart row ≤ i ∧ (i : ℤ) ≤ seqEnd row) ∧
    (∀ i : ℕ, i < seqStart row → row.getD i '-' = '-') ∧
    (∀ i : ℕ, seqEnd row < (i : ℤ) → row.getD i '-' = '-') ∧
    ((∀ c ∈ row, c = '-') →
      seqStart row = 0 ∧ seqEnd row = (row.length : ℤ) - 1) := by
  refine ⟨?_, ?_, ?_, ?_, ?_⟩
  · intro hgap
    constructor
    · by_cases hrange : seqStart row ≤ col ∧ (col : ℤ) ≤ seqEnd row <;>
        simp [minimapCell, hgap, hrange]
    · simp [barsCell, hgap]
  · intro i hi
    constructor
    · cases hf : firstNonGap row with
      | none => exact absurd ((firstNonGap_spec row).2 hf i) hi
      | some k =>
        have hk := (firstNonGap_spec row).1 k hf
        have h1 : seqStart row = k := by simp [seqStart, hf]
        rw [h1]
        by_contra hlt
        exact hi (hk.2.2 i (by omega))
    · cases hl : lastNonGap row with
      | none => exact absurd ((lastNonGap_spec row).2 hl i) hi
      | some k2 =>
        have hk2 := (lastNonGap_spec row).1 k2 hl
        have h2 : seqEnd row = (k2 : ℤ) := by simp [seqEnd, hl]
        rw [h2]
        by_contra hlt
        have hgt : k2 < i := by omega
        exact hi (hk2.2.2 i hgt)
  · intro i hi
    cases hf : firstNonGap row with
    | none =>
      rw [show seqStart row = 0 from by simp [seqStart, hf]] at hi
      omega
    | some k =>
      have hk := (firstNonGap_spec row).1 k hf
      rw [show seqStart row = k from by simp [seqStart, hf]] at hi
      exact hk.2.2 i hi
  · intro i hi
    cases hl : lastNonGap row with
    | none => exact (lastNonGap_spec row).2 hl i
    | some k2 =>
      have hk2 := (lastNonGap_spec row).1 k2 hl
      rw [show seqEnd row = (k2 : ℤ) from by simp [seqEnd, hl]] at hi
      exact hk2.2.2 i (by omega)
  · intro hall
    constructor
    · simp [seqStart, firstNonGap_eq_none row hall]
    · simp [seqEnd, lastNonGap_eq_none row hall]

/-- C7 witness: the gap at column 1 of row `"A-A"` is painted nowhere in the
bars-mode view. -/
theorem C7_internal_deletion_witness :
    barsCell ['A', '-', 'A'] ['A', 'A', 'A'] false none 1 = none :=
  ((C7_internal_deletion ['A', '-', 'A'] ['A', 'A', 'A'] 1).1 (by decide)).2

/-! ### C9: FASTA parser -/

/-- One unfolding of `specParse` at a marker line. -/
theorem specParse_cons_marker (l : List Char) (rest : List (List Char))
    (hm : isMarker l = true) :
    specParse (l :: rest) =
      (if trimL l.tail = [] then []
       else [(trimL l.tail, ((rest.takeWhile fun x => !isMarker x).map trimL).flatten)]) ++
        specParse (rest.dropWhile fun x => !isMarker x) := by
  rw [specParse]
  simp [hm]

/-- One unfolding of `specParse` at a non-marker line. -/
theorem specParse_cons_nonmarker (l : List Char) (rest : List (List Char))
    (hm : isMarker l = false) :
    specParse (l :: rest) = specParse rest := by
  rw [specParse]
  simp [hm]

/-- `specParse` ignores leading non-marker lines. -/
theorem specParse_dropWhile (lines : List (List Char)) :
    specParse (lines.dropWhile fun x => !isMarker x) = specParse lines := by
  induction lines with
  | nil => rfl
  | cons l rest ih =>
    by_cases hm : isMarker l = true
    · simp [List.dropWhile_cons, hm]
    · have hm2 : isMarker l = false := by simpa using hm
      rw [List.dropWhile_cons]
      simp only [hm2]
      rw [specParse_cons_nonmarker l rest hm2]
      simpa using ih

/-- The imperative parsing loop equals the declarative record grouping, for
any pending label and accumulated sequence. -/
theorem parseLines_eq_spec (lines : List (List Char)) :
    ∀ cur seq : List Char,
      parseLines lines cur seq =
        (if cur = [] then []
         else [(cur, seq ++ ((lines.takeWhile fun x => !isMarker x).map trimL).flatten)]) ++
          specParse (lines.dropWhile fun x => !isMarker x) := by
  induction lines with
  | nil =>
    intro cur seq
    by_cases h : cur = [] <;> simp [parseLines, specParse, h]
  | cons l rest ih =>
    intro cur seq
    by_cases hm : isMarker l = true
    · rw [show parseLines (l :: rest) cur seq =
          (if cur = [] then [] else [(cur, seq)]) ++ parseLines rest (trimL l.tail) []
        from by rw [parseLines]; rw [if_pos hm]]
      rw [ih (trimL l.tail) []]
      have hdw : List.dropWhile (fun x => !isMarker x) (l :: rest) = l :: rest := by
        rw [List.dropWhile_cons]
        simp [hm]
      have htw : List.takeWhile (fun x => !isMarker x) (l :: rest) = [] := by
        rw [List.takeWhile_cons]
        simp [hm]
      rw [hdw, htw, specParse_cons_marker l rest hm]
      by_cases h : cur = [] <;> simp [h]
    · have hm2 : isMarker l = false := by simpa using hm
      rw [show parseLines (l :: rest) cur seq = parseLines rest cur (seq ++ trimL l)
        from by rw [parseLines]; rw [if_neg (by simp [hm2])]]
      rw [ih cur (seq ++ trimL l)]
      have hdw : List.dropWhile (fun x => !isMarker x) (l :: rest)
          = List.dropWhile (fun x => !isMarker x) rest := by
        rw [List.dropWhile_cons]
        simp [hm2]
      have htw : List.takeWhile (fun x => !isMarker x) (l :: rest)
          = l :: List.takeWhile (fun x => !isMarker x) rest := by
        rw [List.takeWhile_cons]
        simp [hm2]
      rw [hdw, htw]
      by_cases h : cur = [] <;> simp [h, List.append_assoc]

/-- With no marker line, the grouping is empty. -/
theorem specParse_no_marker (lines : List (List Char))
    (h : ∀ l ∈ lines, isMarker l = false) : specParse lines = [] := by
  induction lines with
  | nil => simp [specParse]
  | cons l rest ih =>
    rw [specParse_cons_nonmarker l rest (h l (by simp))]
    exact ih (fun x hx => h x (by simp [hx]))

/-- C9 counterexample: the parser does not produce one row per marker line.
A marker whose label trims to the empty string is dropped (the push is
guarded by JavaScript string truthiness), so the input
`">\nAC\n>x\nGG"` has two marker lines but parses to a single row. -/
theorem C9_counterexample :
    ¬ (∀ s : List Char,
        (parseFasta s).length =
          (List.splitOn '\n' (trimL s)).countP (fun l => isMarker l)) := by
  intro h
  exact absurd
    (h ['>', '\n', 'A', 'C', '\n', '>', 'x', '\n', 'G', 'G'])
    (by decide)

/-- C9 (amended): the parser produces exactly one row per record-marker line
whose trimmed label is non-empty — such rows carry the trimmed remainder of
the marker line as label and the concatenation of the subsequent trimmed
lines up to the next marker as sequence, while records with empty labels
and lines before the first marker are dropped; blank input or input without
any marker yields the empty row list. -/
theorem C9_fasta_rows (s : List Char) :
    parseFasta s = specParse (List.splitOn '\n' (trimL s)) ∧
    ((∀ l ∈ List.splitOn '\n' (trimL s), isMarker l = false) → parseFasta s = []) ∧
    parseFasta [] = [] ∧
    parseFasta ['>', 'a', '\n', 'A', 'C', '\n', 'G'] = [(['a'], ['A', 'C', 'G'])] := by
  have h1 : parseFasta s = specParse (List.splitOn '\n' (trimL s)) := by
    by_cases hs : s = []
    · subst hs
      have e2 : List.splitOn '\n' (trimL ([] : List Char)) = [[]] := by decide
      rw [show parseFasta ([] : List Char) = [] from rfl, e2,
        specParse_cons_nonmarker [] [] (by decide)]
      simp [specParse]
    · rw [parseFasta, if_neg hs, parseLines_eq_spec]
      simp only [if_pos rfl, List.nil_append]
      exact specParse_dropWhile _
  refine ⟨h1, ?_, by decide, by decide⟩
  intro hall
  rw [h1]
  exact specParse_no_marker _ hall

/-- C9 witness: whitespace-only input parses to the empty row list. -/
theorem C9_fasta_rows_witness : parseFasta [' '] = [] :=
  (C9_fasta_rows [' ']).2.1 (by decide)

/-! ### C10: selection statistics -/

/-- One step of the statistics loop adds one to the matching letter count
and to the total when the character is not a gap. -/
theorem selStatsStep_eq (g c a t tt : ℕ) (ch : Char) :
    selStatsStep (g, c, a, t, tt) ch =
      (g + (if ch = 'G' then 1 else 0), c + (if ch = 'C' then 1 else 0),
       a + (if ch = 'A' then 1 else 0), t + (if ch = 'T' then 1 else 0),
       tt + (if ch ≠ '-' then 1 else 0)) := by
  by_cases hG : ch = 'G'
  · subst hG
    simp [selStatsStep, show ('G' : Char) ≠ 'C' from by decide,
      show ('G' : Char) ≠ 'A' from by decide, show ('G' : Char) ≠ 'T' from by decide,
      show ('G' : Char) ≠ '-' from by decide]
  · by_cases hC : ch = 'C'
    · subst hC
      simp [selStatsStep, hG, show ('C' : Char) ≠ 'A' from by decide,
        show ('C' : Char) ≠ 'T' from by decide, show ('C' : Char) ≠ '-' from by decide]
    · by_cases hA : ch = 'A'
      · subst hA
        simp [selStatsStep, hG, hC, show ('A' : Char) ≠ 'T' from by decide,
          show ('A' : Char) ≠ '-' from by decide]
      · by_cases hT : ch = 'T'
        · subst hT
          simp [selStatsStep, hG, hC, hA, show ('T' : Char) ≠ '-' from by decide]
        · by_cases hD : ch = '-'
          · subst hD
            simp [selStatsStep, hG, hC, hA, hT]
          · simp [selStatsStep, hG, hC, hA, hT, hD]

/-- The statistics loop computes the four letter counts and the non-gap
total of its input. -/
theorem selStatsFold (l : List Char) :
    ∀ st : ℕ × ℕ × ℕ × ℕ × ℕ,
      l.foldl selStatsStep st =
        (st.1 + l.countP (fun ch => ch == 'G'),
         st.2.1 + l.countP (fun ch => ch == 'C'),
         st.2.2.1 + l.countP (fun ch => ch == 'A'),
         st.2.2.2.1 + l.countP (fun ch => ch == 'T'),
         st.2.2.2.2 + l.countP (fun ch => ch != '-')) := by
  induction l with
  | nil => intro st; simp
  | cons ch rest ih =>
    intro st
    obtain ⟨g, c, a, t, tt⟩ := st
    rw [List.foldl_cons, selStatsStep_eq, ih]
    simp only [List.countP_cons, beq_iff_eq, bne_iff_ne, Prod.mk.injEq]
    refine ⟨by omega, by omega, by omega, by omega, by omega⟩

/-- Each character is counted in at most one of the A/T/G/C counters, and
every counted character is a non-gap character. -/
theorem atgc_le_nonGap (l : List Char) :
    l.countP (fun ch => ch == 'A') + l.countP (fun ch => ch == 'T')
      + l.countP (fun ch => ch == 'G') + l.countP (fun ch => ch == 'C')
      ≤ l.countP (fun ch => ch != '-') := by
  induction l with
  | nil => simp
  | cons ch rest ih =>
    simp only [List.countP_cons, beq_iff_eq, bne_iff_ne]
    by_cases hA : ch = 'A'
    · subst hA
      simp [show ('A' : Char) ≠ 'T' from by decide, show ('A' : Char) ≠ 'G' from by decide,
        show ('A' : Char) ≠ 'C' from by decide, show ('A' : Char) ≠ '-' from by decide]
      omega
    · by_cases hT : ch = 'T'
      · subst hT
        simp [hA, show ('T' : Char) ≠ 'G' from by decide,
          show ('T' : Char) ≠ 'C' from by decide, show ('T' : Char) ≠ '-' from by decide]
        omega
      · by_cases hG : ch = 'G'
        · subst hG
          simp [hA, hT, show ('G' : Char) ≠ 'C' from by decide,
            show ('G' : Char) ≠ '-' from by decide]
          omega
        · by_cases hC : ch = 'C'
          · subst hC
            simp [hA, hT, hG, show ('C' : Char) ≠ '-' from by decide]
            omega
          · by_cases hD : ch = '-'
            · subst hD
              simp [hA, hT, hG, hC]
              omega
            · simp [hA, hT, hG, hC, hD]
              omega

/-- C10: the visible-range statistics come from the reference row only,
case-insensitively, over `[startCol, endCol]`; `total` counts every non-gap
character (ambiguity codes such as `N` included) while the A/T/G/C counts
exclude them, so their sum can be strictly below `total` (witnessed by
`"ANg"`); GC% is `100·(g+c)/total` for non-empty ranges and 0 otherwise,
and always lies in `[0, 100]`. -/
theorem C10_selection_stats (query : List Char) (rows1 rows2 : List (List Char))
    (startCol endCol : ℕ) :
    (selectionStats query startCol endCol).g
        = (sliceUpper query startCol endCol).countP (fun ch => ch == 'G') ∧
    (selectionStats query startCol endCol).c
        = (sliceUpper query startCol endCol).countP (fun ch => ch == 'C') ∧
    (selectionStats query startCol endCol).a
        = (sliceUpper query startCol endCol).countP (fun ch => ch == 'A') ∧
    (selectionStats query startCol endCol).t
        = (sliceUpper query startCol endCol).countP (fun ch => ch == 'T') ∧
    (selectionStats query startCol endCol).total
        = (sliceUpper query startCol endCol).countP (fun ch => ch != '-') ∧
    (selectionStats query startCol endCol).a + (selectionStats query startCol endCol).t
        + (selectionStats query startCol endCol).g + (selectionStats query startCol endCol).c
        ≤ (selectionStats query startCol endCol).total ∧
    ((selectionStats query startCol endCol).total = 0 →
      (selectionStats query startCol endCol).gcPct = 0) ∧
    (0 < (selectionStats query startCol endCol).total →
      (selectionStats query startCol endCol).gcPct =
        (((selectionStats query startCol endCol).g : ℚ)
            + ((selectionStats query startCol endCol).c : ℚ))
          / ((selectionStats query startCol endCol).total : ℚ) * 100) ∧
    0 ≤ (selectionStats query startCol endCol).gcPct ∧
    (selectionStats query startCol endCol).gcPct ≤ 100 ∧
    selectionStatsTop (query :: rows1) startCol endCol
        = selectionStatsTop (query :: rows2) startCol endCol ∧
    (selectionStats ['A', 'N', 'g'] 0 2).total = 3 ∧
    (selectionStats ['A', 'N', 'g'] 0 2).a + (selectionStats ['A', 'N', 'g'] 0 2).t
        + (selectionStats ['A', 'N', 'g'] 0 2).g + (selectionStats ['A', 'N', 'g'] 0 2).c
        = 2 := by
  have hfold := selStatsFold (sliceUpper query startCol endCol) (0, 0, 0, 0, 0)
  have hg : (selectionStats query startCol endCol).g
      = (sliceUpper query startCol endCol).countP (fun ch => ch == 'G') := by
    show ((sliceUpper query startCol endCol).foldl selStatsStep (0, 0, 0, 0, 0)).1 = _
    rw [hfold]
    simp
  have hc : (selectionStats query startCol endCol).c
      = (sliceUpper query startCol endCol).countP (fun ch => ch == 'C') := by
    show ((sliceUpper query startCol endCol).foldl selStatsStep (0, 0, 0, 0, 0)).2.1 = _
    rw [hfold]
    simp
  have ha : (selectionStats query startCol endCol).a
      = (sliceUpper query startCol endCol).countP (fun ch => ch == 'A') := by
    show ((sliceUpper query startCol endCol).foldl selStatsStep (0, 0, 0, 0, 0)).2.2.1 = _
    rw [hfold]
    simp
  have ht : (selectionStats query startCol endCol).t
      = (sliceUpper query startCol endCol).countP (fun ch => ch == 'T') := by
    show ((sliceUpper query startCol endCol).foldl selStatsStep (0, 0, 0, 0, 0)).2.2.2.1 = _
    rw [hfold]
    simp
  have htot : (selectionStats query startCol endCol).total
      = (sliceUpper query startCol endCol).countP (fun ch => ch != '-') := by
    show ((sliceUpper query startCol endCol).foldl selStatsStep (0, 0, 0, 0, 0)).2.2.2.2 = _
    rw [hfold]
    simp
  have hsum : (selectionStats query startCol endCol).a
      + (selectionStats query startCol endCol).t
      + (selectionStats query startCol endCol).g
      + (selectionStats query startCol endCol).c
      ≤ (selectionStats query startCol endCol).total := by
    rw [ha, ht, hg, hc, htot]
    exact atgc_le_nonGap _
  have hdef : (selectionStats query startCol endCol).gcPct =
      if 0 < (selectionStats query startCol endCol).total
      then (((selectionStats query startCol endCol).g : ℚ)
            + ((selectionStats query startCol endCol).c : ℚ))
          / ((selectionStats query startCol endCol).total : ℚ) * 100
      else 0 := rfl
  refine ⟨hg, hc, ha, ht, htot, hsum, ?_, ?_, ?_, ?_, rfl, by decide, by decide⟩
  · intro h0
    rw [hdef, if_neg (by omega)]
  · intro h0
    rw [hdef, if_pos h0]
  · by_cases h0 : 0 < (selectionStats query startCol endCol).total
    · rw [hdef, if_pos h0]
      positivity
    · rw [hdef, if_neg h0]
  · by_cases h0 : 0 < (selectionStats query startCol endCol).total
    · rw [hdef, if_pos h0]
      have hgc : (selectionStats query startCol endCol).g
          + (selectionStats query startCol endCol).c
          ≤ (selectionStats query startCol endCol).total := by omega
      have hpos : (0 : ℚ) < ((selectionStats query startCol endCol).total : ℚ) := by
        exact_mod_cast h0
      have hone : (((selectionStats query startCol endCol).g : ℚ)
            + ((selectionStats query startCol endCol).c : ℚ))
          / ((selectionStats query startCol endCol).total : ℚ) ≤ 1 := by
        rw [div_le_one hpos]
        exact_mod_cast hgc
      calc (((selectionStats query startCol endCol).g : ℚ)
            + ((selectionStats query startCol endCol).c : ℚ))
          / ((selectionStats query startCol endCol).total : ℚ) * 100
          ≤ 1 * 100 := by
            apply mul_le_mul_of_nonneg_right hone
            norm_num
        _ = 100 := by norm_num
    · rw [hdef, if_neg h0]
      norm_num

/-- C10 witness: an all-gap visible range reports GC% 0. -/
theorem C10_selection_stats_witness : (selectionStats ['-'] 0 0).gcPct = 0 :=
  (C10_selection_stats ['-'] [] [] 0 0).2.2.2.2.2.2.1 (by decide)

end MSA
